import Mathlib

/- Shallow embedding of the binary-encoded genetic algorithm searching for an
   arithmetic expression (source files: src/typescript/src/util.ts and
   src/unnamed/part_000).

   Modeling conventions:
   * JavaScript numbers are modeled as extended rationals (`JSVal`): exact
     rational arithmetic together with the special values `Infinity`,
     `-Infinity` and `NaN` that division by zero produces.  (Binary floating
     point rounding is abstracted away; every claim under verification is
     about exact arithmetic.)
   * `Math.random()` draws are passed explicitly: either as a single rational
     argument or as a stream `s : ℕ → ℚ` together with a cursor that each
     consumer advances, mirroring the source's sequential calls.
   * A thrown JavaScript exception (e.g. `eval` on a malformed string, or
     `reduce` on an empty array) is modeled by `Option`, with `none` for the
     exceptional outcome. -/

/- ======================= Definitions ======================= -/

/-- A bit (source: `type Bit = 0 | 1`); `false` models 0, `true` models 1. -/
abbrev Bit := Bool

/-- A gene is a tuple of bits (source: `NumberGene`/`OperatorGene`), modeled
as a bit list whose length is the gene's width (4 for number genes, 2 for
operator genes).  Arbitrary widths are representable, exactly as the
TypeScript runtime values are plain arrays. -/
abbrev Gene := List Bit

/-- Source: `type Chromosome = Gene[]`. -/
abbrev Chromosome := List Gene

/-- Source: `numberAlleles`, the ten 4-bit digit patterns. -/
def numberAlleles : List Gene :=
  [ [false, false, false, false]  -- 0
  , [false, false, false, true ]  -- 1
  , [false, false, true , false]  -- 2
  , [false, false, true , true ]  -- 3
  , [false, true , false, false]  -- 4
  , [false, true , false, true ]  -- 5
  , [false, true , true , false]  -- 6
  , [false, true , true , true ]  -- 7
  , [true , false, false, false]  -- 8
  , [true , false, false, true ]  -- 9
  ]

/-- Source: `operatorAlleles`, the four 2-bit operator patterns. -/
def operatorAlleles : List Gene :=
  [ [false, false]  -- +
  , [false, true ]  -- -
  , [true , false]  -- *
  , [true , true ]  -- /
  ]

/-- Source: `isNumber`; `eqArrays` is structural list equality (`==`). -/
def isNumber (gene : Gene) : Bool :=
  numberAlleles.any (fun x => x == gene)

/-- Source: `isOperator`. -/
def isOperator (gene : Gene) : Bool :=
  operatorAlleles.any (fun x => x == gene)

/-- Source: `type Value`, the union of the decoded symbol strings
`"0"`..`"9"`, `"+"`, `"-"`, `"*"`, `"/"`, `"(junk)"`. -/
inductive Value where
  | digit (n : ℕ) : Value
  | plus : Value
  | minus : Value
  | times : Value
  | divide : Value
  | junk : Value
deriving DecidableEq, Repr

/-- Source: `geneValue`.  The TypeScript function tries the ten digit
patterns inside `if (isNumber(gene))`, then the four operator patterns inside
`if (isOperator(gene))`, and returns `"(junk)"` otherwise; a passed guard
always hits one of its patterns, so the nested `else`-branches below that
return `junk` are dead code, exactly as the fall-through is in the source. -/
def geneValue (gene : Gene) : Value :=
  if isNumber gene then
    if gene == [false, false, false, false] then Value.digit 0
    else if gene == [false, false, false, true ] then Value.digit 1
    else if gene == [false, false, true , false] then Value.digit 2
    else if gene == [false, false, true , true ] then Value.digit 3
    else if gene == [false, true , false, false] then Value.digit 4
    else if gene == [false, true , false, true ] then Value.digit 5
    else if gene == [false, true , true , false] then Value.digit 6
    else if gene == [false, true , true , true ] then Value.digit 7
    else if gene == [true , false, false, false] then Value.digit 8
    else if gene == [true , false, false, true ] then Value.digit 9
    else Value.junk
  else if isOperator gene then
    if gene == [false, false] then Value.plus
    else if gene == [false, true ] then Value.minus
    else if gene == [true , false] then Value.times
    else if gene == [true , true ] then Value.divide
    else Value.junk
  else Value.junk

/-- Source: `chunksOf` (util.ts): splits an array into chunks of size `n` by
building the chunk index lists `[[0,0,..],[1,1,..],..]` plus a final partial
chunk for the remainder, turning them into element indexes, and reading the
array (`xs[idx]`, always in range, modeled by `getD`). -/
def chunksOf {α : Type} [Inhabited α] (n : ℕ) (xs : List α) : List (List α) :=
  let size := xs.length / n
  let initialChunks : List (List ℕ) := (List.range size).map (fun idx => List.replicate n idx)
  let extraChunks : List ℕ := List.replicate (xs.length % n) initialChunks.length
  let chunks : List (List ℕ) :=
    if extraChunks.length > 0 then initialChunks ++ [extraChunks] else initialChunks
  let indexes : List (List ℕ) :=
    chunks.map (fun chunk => chunk.mapIdx (fun idx chunkNum => chunkNum * n + idx))
  indexes.map (fun chunk => chunk.map (fun idx => xs.getD idx default))

/-- Source: `last` (util.ts): `xs[xs.length - 1]`. -/
def last {α : Type} [Inhabited α] (xs : List α) : α :=
  xs.getD (xs.length - 1) default

/-- Source: `scan` (util.ts): `values.reduce((acc, x) => [...acc, fn(last(acc), x)], [initial])`. -/
def scan {α β : Type} [Inhabited α] (fn : α → β → α) (initial : α) (values : List β) : List α :=
  values.foldl (fun acc x => acc ++ [fn (last acc) x]) [initial]

/-- Source: `zip` (util.ts): pairs `[xs[i], ys[i]]` for `i` below the length
of the shorter array (the branch on `xs.length <= ys.length` picks which array
the reduce runs over; in both branches the pair reads both arrays in range). -/
def zip {α β : Type} [Inhabited α] [Inhabited β] (xs : List α) (ys : List β) : List (α × β) :=
  if xs.length ≤ ys.length then
    (List.range xs.length).map (fun i => (xs.getD i default, ys.getD i default))
  else
    (List.range ys.length).map (fun i => (xs.getD i default, ys.getD i default))

/-- Source: `cleanChromosome` (util.ts): prepend a synthetic `[0,0]` ("+")
gene, split into pairs, keep complete pairs whose second gene is a non-junk
digit, flatten (`reduce` with initial `[]`), and drop the synthetic gene. -/
def cleanChromosome (chromosome : Chromosome) : Chromosome :=
  let genes : List Gene := [false, false] :: chromosome
  let pairs := chunksOf 2 genes
  ((((pairs.filter (fun pair => pair.length == 2)).filter
      (fun pair => !(geneValue (pair.getD 1 default) == Value.junk))).foldl
    (fun acc pair => acc ++ pair) []).drop 1)

/-- Pairing helper: the recursive form of `chunksOf 2` (proved equivalent in
`chunksOf_two_eq_pairsAux`; all structural proofs about cleaning use it). -/
def pairsAux {α : Type} : List α → List (List α)
  | [] => []
  | [a] => [[a]]
  | a :: b :: t => [a, b] :: pairsAux t

/-- The pairs of `[+] ++ c` that `cleanChromosome` keeps: complete pairs whose
second gene decodes to a non-junk value. -/
def keptPairs (c : Chromosome) : List (List Gene) :=
  ((pairsAux ([false, false] :: c)).filter (fun pair => pair.length == 2)).filter
    (fun pair => !(geneValue (pair.getD 1 default) == Value.junk))

/-- True iff the decoded value is one of the digits `"0"`..`"9"`. -/
def isDigitValue : Value → Bool
  | .digit _ => true
  | _ => false

/-- True iff the decoded value is one of `"+"`, `"-"`, `"*"`, `"/"`. -/
def isOperatorValue : Value → Bool
  | .plus => true
  | .minus => true
  | .times => true
  | .divide => true
  | _ => false

/-- The data-model invariant on chromosomes (spec §3): an alternating
sequence of 4-bit (digit-width) and 2-bit (operator-width) genes, beginning
and ending with a 4-bit gene; the empty chromosome is allowed.  Digit-width
genes may still decode to junk — only the widths are constrained. -/
def wfChromosome : Chromosome → Bool
  | [] => true
  | [g] => g.length == 4
  | g :: o :: rest => g.length == 4 && o.length == 2 && rest != [] && wfChromosome rest

/-- Shape of an `(operator digit)*` gene sequence (what follows the synthetic
"+" before cleaning drops it). -/
def wfPairsSeq : List Gene → Bool
  | [] => true
  | [_] => false
  | o :: d :: rest => o.length == 2 && d.length == 4 && wfPairsSeq rest

/-- A cleaned chromosome's shape: empty, or `digit (operator digit)*` where
every even position decodes to a digit and every odd one to an operator. -/
def exprShape : Chromosome → Bool
  | [] => true
  | [d] => isDigitValue (geneValue d)
  | d :: o :: rest =>
      isDigitValue (geneValue d) && isOperatorValue (geneValue o) &&
        rest != [] && exprShape rest

/-- A JavaScript number as produced by evaluating a cleaned math string:
an exact rational, `Infinity`, `-Infinity`, or `NaN`. -/
inductive JSVal where
  | fin (q : ℚ) : JSVal
  | posInf : JSVal
  | negInf : JSVal
  | nan : JSVal
deriving DecidableEq, Repr, Inhabited

/-- JS `+` on numbers (IEEE rules for the special values). -/
def jadd : JSVal → JSVal → JSVal
  | .nan, _ => .nan
  | _, .nan => .nan
  | .fin a, .fin b => .fin (a + b)
  | .posInf, .negInf => .nan
  | .negInf, .posInf => .nan
  | .posInf, _ => .posInf
  | _, .posInf => .posInf
  | .negInf, _ => .negInf
  | _, .negInf => .negInf

/-- JS `-` on numbers. -/
def jsub : JSVal → JSVal → JSVal
  | .nan, _ => .nan
  | _, .nan => .nan
  | .fin a, .fin b => .fin (a - b)
  | .posInf, .posInf => .nan
  | .negInf, .negInf => .nan
  | .posInf, _ => .posInf
  | .negInf, _ => .negInf
  | .fin _, .posInf => .negInf
  | .fin _, .negInf => .posInf

/-- JS `*` on numbers. -/
def jmul : JSVal → JSVal → JSVal
  | .nan, _ => .nan
  | _, .nan => .nan
  | .fin a, .fin b => .fin (a * b)
  | .fin a, .posInf => if 0 < a then .posInf else if a < 0 then .negInf else .nan
  | .fin a, .negInf => if 0 < a then .negInf else if a < 0 then .posInf else .nan
  | .posInf, .fin b => if 0 < b then .posInf else if b < 0 then .negInf else .nan
  | .negInf, .fin b => if 0 < b then .negInf else if b < 0 then .posInf else .nan
  | .posInf, .posInf => .posInf
  | .posInf, .negInf => .negInf
  | .negInf, .posInf => .negInf
  | .negInf, .negInf => .posInf

/-- JS `/` on numbers: division by zero produces a signed infinity (or `NaN`
for `0/0`); a zero denominator is the positive zero `+0`. -/
def jdiv : JSVal → JSVal → JSVal
  | .nan, _ => .nan
  | _, .nan => .nan
  | .fin a, .fin b =>
      if b ≠ 0 then .fin (a / b)
      else if 0 < a then .posInf
      else if a < 0 then .negInf
      else .nan
  | .fin _, .posInf => .fin 0
  | .fin _, .negInf => .fin 0
  | .posInf, .fin b => if 0 ≤ b then .posInf else .negInf
  | .negInf, .fin b => if 0 ≤ b then .negInf else .posInf
  | .posInf, .posInf => .nan
  | .posInf, .negInf => .nan
  | .negInf, .posInf => .nan
  | .negInf, .negInf => .nan

/-- JS `Math.abs`. -/
def jabs : JSVal → JSVal
  | .fin a => .fin |a|
  | .posInf => .posInf
  | .negInf => .posInf
  | .nan => .nan

/-- JS `<=` (any comparison involving `NaN` is false). -/
def jle : JSVal → JSVal → Bool
  | .nan, _ => false
  | _, .nan => false
  | .fin a, .fin b => decide (a ≤ b)
  | .negInf, _ => true
  | _, .posInf => true
  | .posInf, _ => false
  | .fin _, .negInf => false

/-- JS `<` (any comparison involving `NaN` is false). -/
def jlt : JSVal → JSVal → Bool
  | .nan, _ => false
  | _, .nan => false
  | .fin a, .fin b => decide (a < b)
  | .negInf, .negInf => false
  | .posInf, .posInf => false
  | .negInf, _ => true
  | _, .posInf => true
  | .posInf, _ => false
  | .fin _, .negInf => false

/-- JS global `isNaN` on a number. -/
def jsIsNaN : JSVal → Bool
  | .nan => true
  | _ => false

/-- Source: `sum` (util.ts): `ns.reduce((acc, n) => acc + n, 0)`. -/
def sum (ns : List JSVal) : JSVal := ns.foldl jadd (.fin 0)

/-- The four arithmetic operators of the expression language. -/
inductive MathOp where
  | add | sub | mul | div
deriving DecidableEq, Repr

def applyOp : MathOp → JSVal → JSVal → JSVal
  | .add => jadd
  | .sub => jsub
  | .mul => jmul
  | .div => jdiv

def valDigit : Value → Option ℚ
  | .digit n => some (n : ℚ)
  | _ => none

def valOp : Value → Option MathOp
  | .plus => some .add
  | .minus => some .sub
  | .times => some .mul
  | .divide => some .div
  | _ => none

/-- Standard-precedence evaluation of `first op₁ d₁ op₂ d₂ …`: `*` and `/`
extend the current term left-to-right; `+` and `-` close it into the running
sum.  `acc` starts at `0` with a pending `+`, which is the identity on every
`JSVal`, so the result agrees with the abstract-syntax-tree evaluation that
JavaScript's `eval` performs on the same string. -/
def evalPrecAux (acc : JSVal) (pending : MathOp) (term : JSVal) :
    List (MathOp × ℚ) → JSVal
  | [] => applyOp pending acc term
  | (op, q) :: rest =>
      match op with
      | .mul => evalPrecAux acc pending (jmul term (.fin q)) rest
      | .div => evalPrecAux acc pending (jdiv term (.fin q)) rest
      | .add => evalPrecAux (applyOp pending acc term) .add (.fin q) rest
      | .sub => evalPrecAux (applyOp pending acc term) .sub (.fin q) rest

/-- Parse the `(operator digit)*` tail of a token list; `none` models the
`SyntaxError` that JS `eval` throws on a malformed expression. -/
def parseTail : List Value → Option (List (MathOp × ℚ))
  | [] => some []
  | o :: d :: rest => do
      let op ← valOp o
      let q ← valDigit d
      let t ← parseTail rest
      some ((op, q) :: t)
  | [_] => none

/-- Source: `evaluateMath` — JS `Number(eval(mathStr))` on the space-joined
symbol list.  The empty string evaluates to `undefined`, and
`Number(undefined)` is `NaN`; a `digit (operator digit)*` string evaluates
with standard precedence; any other token list throws (`none`). -/
def evalMath : List Value → Option JSVal
  | [] => some .nan
  | d :: rest => do
      let q ← valDigit d
      let t ← parseTail rest
      some (evalPrecAux (.fin 0) .add (.fin q) t)

/-- Source: `evaluateFitness` (util.ts): clean, decode, evaluate; fitness 0
for `NaN` or `Infinity` results, else `1 / (Math.abs(target - n) + 1)`. -/
def evaluateFitness (chromosome : Chromosome) (target : ℚ) : Option JSVal :=
  match evalMath ((cleanChromosome chromosome).map geneValue) with
  | none => none
  | some n =>
      if jsIsNaN n || n == JSVal.posInf then some (.fin 0)
      else some (jdiv (.fin 1) (jadd (jabs (jsub (.fin target) n)) (.fin 1)))

/-- Source: `chrom1` (part_000): `[0110, 00, 0101, 10, 0100, 11, 0010, 01, 1111, 00, 0001]`,
decoding to `6 + 5 * 4 / 2 - (junk) + 1`. -/
def chrom1 : Chromosome :=
  [ [false, true , true , false]  -- 6
  , [false, false]                -- +
  , [false, true , false, true ]  -- 5
  , [true , false]                -- *
  , [false, true , false, false]  -- 4
  , [true , true ]                -- /
  , [false, false, true , false]  -- 2
  , [false, true ]                -- -
  , [true , true , true , true ]  -- (junk)
  , [false, false]                -- +
  , [false, false, false, true ]  -- 1
  ]

/-- Source: `type Organism = { chromosome, fitness }`. -/
structure Organism where
  chromosome : Chromosome
  fitness : JSVal
deriving DecidableEq, Repr, Inhabited

/-- Source: `rouletteWheelSelection`.  `u` is the `Math.random()` draw in
`[0,1)`.  The scan is seeded with `fitnesses[0]` (modeled `getD 0 nan`:
`undefined` behaves as `NaN` in arithmetic, and it is only read when the
population is empty) and runs over the whole fitness list; `zip` then
truncates the n+1 cumulative values to the population length.  The fallback
reads `population[population.length - 1]`, `none` when out of range. -/
def rouletteWheelSelection (population : List Organism) (u : ℚ) : Option Organism :=
  let fitnesses : List JSVal := population.map (fun o => o.fitness)
  let totalFitness : JSVal := sum fitnesses
  let cumulFitnesses : List JSVal :=
    scan (fun x y => jadd x y) (fitnesses.getD 0 .nan) fitnesses
  let withCumulativeFitnesses : List (Organism × JSVal) := zip population cumulFitnesses
  let r : JSVal := jmul (.fin u) totalFitness
  match withCumulativeFitnesses.find? (fun oc => jle r oc.2) with
  | some oc => some oc.1
  | none => population[population.length - 1]?

/-- The selection rule as the spec words it (for comparison with the code):
pair each organism with the running prefix sum of the fitnesses up to and
including itself, and select the first organism whose prefix sum is `≥ r`,
falling back to the last organism when none is. -/
def rouletteSpecRule (population : List Organism) (r : JSVal) : Option Organism :=
  let prefixSums : List JSVal :=
    (List.scanl jadd (JSVal.fin 0) (population.map (fun o => o.fitness))).tail
  match (zip population prefixSums).find? (fun oc => jle r oc.2) with
  | some oc => some oc.1
  | none => population[population.length - 1]?

def orgA : Organism := ⟨[[false, false, false, false]], .fin 1⟩
def orgB : Organism := ⟨[[false, false, false, true ]], .fin 2⟩
def orgC : Organism := ⟨[[false, false, true , false]], .fin 3⟩
def orgD : Organism := ⟨[[false, false, true , true ]], .fin 1⟩
def orgZ1 : Organism := ⟨[[false, false, false, false]], .fin 0⟩
def orgZ2 : Organism := ⟨[[false, false, false, true ]], .fin 0⟩

/-- Source: `flipBit`: `bit === 0 ? 1 : 0`. -/
def flipBit (bit : Bit) : Bit := if bit == false then true else false

/-- Source: the inner `mutateBit` of `mutate`, with its `Math.random()` draw
`r` passed explicitly: flip when `r <= mutationRate`. -/
def mutateBit (mutationRate : ℚ) (r : ℚ) (bit : Bit) : Bit :=
  if r ≤ mutationRate then flipBit bit else bit

/-- One gene of the `chromosome.map(...)` body of `mutate`: a number gene
destructures into four bits and mutates each (consuming four draws), an
operator gene into two; any other gene — a junk pattern — is returned
unchanged and consumes no draws.  The wildcard rows of the two inner matches
are unreachable (`isNumber`/`isOperator` imply the length) and return the
gene unchanged. -/
def mutateGene (mutationRate : ℚ) (s : ℕ → ℚ) (k : ℕ) (gene : Gene) : Gene × ℕ :=
  if isNumber gene then
    match gene with
    | [a, b, c, d] =>
        ([mutateBit mutationRate (s k) a, mutateBit mutationRate (s (k+1)) b,
          mutateBit mutationRate (s (k+2)) c, mutateBit mutationRate (s (k+3)) d], k + 4)
    | g => (g, k)
  else if isOperator gene then
    match gene with
    | [a, b] =>
        ([mutateBit mutationRate (s k) a, mutateBit mutationRate (s (k+1)) b], k + 2)
    | g => (g, k)
  else (gene, k)

/-- Source: `mutate`: map `mutateGene` over the chromosome, threading the
random draw cursor left to right. -/
def mutate (chromosome : Chromosome) (mutationRate : ℚ) (s : ℕ → ℚ) (k : ℕ) :
    Chromosome × ℕ :=
  match chromosome with
  | [] => ([], k)
  | g :: rest =>
      let p := mutateGene mutationRate s k g
      let q := mutate rest mutationRate s p.2
      (p.1 :: q.1, q.2)

/-- Source: `crossover`: with the first draw `r = s k`, if `r <= crossoverRate`
then a second draw picks `position = Math.floor(Math.random() * x.length)` and
the tails are swapped (`slice(0, position)` / `slice(position)`), consuming
two draws; otherwise the parents are returned as-is, consuming one draw. -/
def crossover (x y : Chromosome) (crossoverRate : ℚ) (s : ℕ → ℚ) (k : ℕ) :
    (Chromosome × Chromosome) × ℕ :=
  if s k ≤ crossoverRate then
    let position : ℕ := (⌊s (k + 1) * (x.length : ℚ)⌋).toNat
    ((x.take position ++ y.drop position, y.take position ++ x.drop position), k + 2)
  else ((x, y), k + 1)

/-- Source: `type NumberOrOperator = "number" | "operator"`. -/
inductive NumberOrOperator where
  | number
  | operator
deriving DecidableEq, Repr

/-- Source: `randomBit`: `(Math.random() < 0.5) ? 0 : 1`, with the draw taken
from the stream. -/
def randomBit (s : ℕ → ℚ) (k : ℕ) : Bit × ℕ :=
  ((if s k < 1/2 then false else true), k + 1)

/-- Source: `randomGene`: four (resp. two) sequential `randomBit()` calls. -/
def randomGene (t : NumberOrOperator) (s : ℕ → ℚ) (k : ℕ) : Gene × ℕ :=
  match t with
  | .number =>
      let p1 := randomBit s k
      let p2 := randomBit s p1.2
      let p3 := randomBit s p2.2
      let p4 := randomBit s p3.2
      ([p1.1, p2.1, p3.1, p4.1], p4.2)
  | .operator =>
      let p1 := randomBit s k
      let p2 := randomBit s p1.2
      ([p1.1, p2.1], p2.2)

/-- Model of `buildArray(n).map(_ => gen())`: `n` sequential calls of an
effectful generator, threading the draw cursor. -/
def genList {α : Type} (n : ℕ) (gen : ℕ → α × ℕ) (k : ℕ) : List α × ℕ :=
  match n with
  | 0 => ([], k)
  | m + 1 =>
      let p := gen k
      let q := genList m gen p.2
      (p.1 :: q.1, q.2)

/-- Source: `randomChromosome`: `floor(length/2)` number genes, then
`Math.floor(length/2 - 1)` operator genes, zipped, flattened, and closed with
the last number gene.  For `length ≥ 2` the operator count is `length/2 - 1`
exactly as the ℕ subtraction gives; for `length ≤ 1` the source throws a
`RangeError` on `buildArray(-1)` (the model clamps to 0 there; no claim
concerns those lengths). -/
def randomChromosome (length : ℕ) (s : ℕ → ℚ) (k : ℕ) : Chromosome × ℕ :=
  let numberGenes := genList (length / 2) (randomGene .number s) k
  let operatorGenes := genList (length / 2 - 1) (randomGene .operator s) numberGenes.2
  (((zip numberGenes.1 operatorGenes.1).map (fun p => [p.1, p.2])).flatten ++
    [last numberGenes.1], operatorGenes.2)

/-- The `reproduce` closure inside `runAlgorithm`: select two parents
(one draw each), cross them over, and mutate both children, threading the
draw cursor; `none` propagates a selection failure (empty population). -/
def reproduce (population : List Organism) (crossoverRate mutationRate : ℚ)
    (s : ℕ → ℚ) (k : ℕ) : Option ((Chromosome × Chromosome) × ℕ) := do
  let parent1 ← rouletteWheelSelection population (s k)
  let parent2 ← rouletteWheelSelection population (s (k + 1))
  let pc := crossover parent1.chromosome parent2.chromosome crossoverRate s (k + 2)
  let m1 := mutate pc.1.1 mutationRate s pc.2
  let m2 := mutate pc.1.2 mutationRate s m1.2
  some ((m1.1, m2.1), m2.2)

/-- Model of `buildArray(populationSize / 2).map(reproduce)`: the
reproduction rounds of one generation, in order. -/
def reproduceN (n : ℕ) (population : List Organism) (crossoverRate mutationRate : ℚ)
    (s : ℕ → ℚ) (k : ℕ) : Option (List (Chromosome × Chromosome) × ℕ) :=
  match n with
  | 0 => some ([], k)
  | m + 1 => do
      let p ← reproduce population crossoverRate mutationRate s k
      let q ← reproduceN m population crossoverRate mutationRate s p.2
      some (p.1 :: q.1, q.2)

/-- Model of `chromPopulation.map(c => ({chromosome: c, fitness: ...}))`
scoring, with a thrown evaluation propagating out. -/
def scorePopulation (chromPopulation : List Chromosome) (target : ℚ) :
    Option (List Organism) :=
  match chromPopulation with
  | [] => some []
  | c :: rest => do
      let f ← evaluateFitness c target
      let os ← scorePopulation rest target
      some (Organism.mk c f :: os)

/-- Source: the recursive `generationalStep` of `runAlgorithm`: stop once
`generation >= generationLimit`, otherwise score, reproduce
`populationSize / 2` times, flatten the offspring pairs and recurse.  The
source recursion terminates because `generation` increases to the limit; the
structural `fuel` argument (instantiated with `generationLimit`, an upper
bound on the remaining steps) carries that measure, and its exhaustion branch
is unreachable whenever `fuel ≥ generationLimit - generation`. -/
def generationalStep (crossoverRate mutationRate : ℚ)
    (generationLimit populationSize : ℕ) (target : ℚ) (s : ℕ → ℚ) :
    ℕ → List Chromosome → ℕ → ℕ → Option (List Chromosome × ℕ)
  | fuel, chromPopulation, generation, k =>
    if generationLimit ≤ generation then some (chromPopulation, k)
    else
      match fuel with
      | 0 => none
      | m + 1 => do
          let population ← scorePopulation chromPopulation target
          let rp ← reproduceN (populationSize / 2) population crossoverRate mutationRate s k
          generationalStep crossoverRate mutationRate generationLimit populationSize target s
            m ((rp.1.map (fun p => [p.1, p.2])).flatten) (generation + 1) rp.2

/-- Source: `runAlgorithm`: build the initial random population, run the
generational steps from generation 0, re-score the final population and pick
the organism with maximal fitness (`reduce`, earliest index on ties; `none`
models the exception `reduce` throws on an empty population). -/
def runAlgorithm (populationSize : ℕ) (crossoverRate mutationRate : ℚ)
    (generationLimit chromosomeLength : ℕ) (target : ℚ) (s : ℕ → ℚ) :
    Option Organism := do
  let initial := genList populationSize (fun k => randomChromosome chromosomeLength s k) 0
  let fp ← generationalStep crossoverRate mutationRate generationLimit populationSize target s
    generationLimit initial.1 0 initial.2
  let finalPopulation ← scorePopulation fp.1 target
  match finalPopulation with
  | [] => none
  | o :: rest =>
      some (rest.foldl (fun best organism =>
        if jlt best.fitness organism.fitness then organism else best) o)

def junkChrom : Chromosome := [[true, true, true, true]]

def junkOrg : Organism := ⟨junkChrom, .fin 0⟩

/-- The constant draw stream `1/2` used by the concrete run below. -/
def halfStream : ℕ → ℚ := fun _ => 1/2

/- ======================== Theorems ========================= -/

theorem mapIdx_pair {α β : Type} (f : ℕ → α → β) (x y : α) :
    List.mapIdx f [x, y] = [f 0 x, f 1 y] := by
  simp [List.mapIdx_cons]

/-- Closed form of `chunksOf 2`: the full pairs, plus the singleton leftover
chunk when the length is odd. -/
theorem chunksOf_two_closed {α : Type} [Inhabited α] (xs : List α) :
    chunksOf 2 xs =
      (List.range (xs.length / 2)).map
        (fun i => [xs.getD (i * 2) default, xs.getD (i * 2 + 1) default]) ++
      (if xs.length % 2 = 0 then []
       else [[xs.getD ((xs.length / 2) * 2) default]]) := by
  unfold chunksOf
  rcases Nat.mod_two_eq_zero_or_one xs.length with h | h
  · simp [h, mapIdx_pair]
  · simp [h, mapIdx_pair]

theorem chunksOf_two_nil {α : Type} [Inhabited α] :
    chunksOf 2 ([] : List α) = [] := by
  simp [chunksOf_two_closed]

theorem chunksOf_two_singleton {α : Type} [Inhabited α] (a : α) :
    chunksOf 2 [a] = [[a]] := by
  simp [chunksOf_two_closed]

theorem chunksOf_two_cons_cons {α : Type} [Inhabited α] (a b : α) (t : List α) :
    chunksOf 2 (a :: b :: t) = [a, b] :: chunksOf 2 t := by
  rw [chunksOf_two_closed, chunksOf_two_closed]
  have hlen : (a :: b :: t).length = t.length + 2 := by simp
  have hdiv : (a :: b :: t).length / 2 = t.length / 2 + 1 := by
    rw [hlen]; omega
  have hmod : (a :: b :: t).length % 2 = t.length % 2 := by
    rw [hlen]; omega
  rw [hdiv, hmod, List.range_succ_eq_map, List.map_cons, List.cons_append]
  congr 1
  congr 1
  · rw [List.map_map]
    apply List.map_congr_left
    intro i _
    have h1 : Nat.succ i * 2 = i * 2 + 1 + 1 := by omega
    have h2 : Nat.succ i * 2 + 1 = i * 2 + 1 + 1 + 1 := by omega
    simp only [Function.comp_apply, h1, h2, List.getD_cons_succ]
  · rcases Nat.mod_two_eq_zero_or_one t.length with h | h
    · simp [h]
    · have h3 : (t.length / 2 + 1) * 2 = t.length / 2 * 2 + 1 + 1 := by omega
      simp only [h, h3, List.getD_cons_succ]

theorem chunksOf_two_eq_pairsAux {α : Type} [Inhabited α] :
    ∀ xs : List α, chunksOf 2 xs = pairsAux xs
  | [] => chunksOf_two_nil
  | [a] => chunksOf_two_singleton a
  | a :: b :: t => by
      rw [chunksOf_two_cons_cons, chunksOf_two_eq_pairsAux t, pairsAux]

theorem foldl_append_eq_flatten {α : Type} :
    ∀ (L : List (List α)) (acc : List α),
      L.foldl (fun a p => a ++ p) acc = acc ++ L.flatten
  | [], acc => by simp
  | p :: L', acc => by
      rw [List.foldl_cons, foldl_append_eq_flatten L' (acc ++ p)]
      simp

theorem cleanChromosome_eq_kept (c : Chromosome) :
    cleanChromosome c = (keptPairs c).flatten.drop 1 := by
  unfold cleanChromosome keptPairs
  dsimp only
  rw [chunksOf_two_eq_pairsAux, foldl_append_eq_flatten]
  simp

theorem keptPairs_mem {c : Chromosome} {p : List Gene} (hp : p ∈ keptPairs c) :
    p.length = 2 ∧ geneValue (p.getD 1 default) ≠ Value.junk := by
  unfold keptPairs at hp
  rw [List.mem_filter] at hp
  obtain ⟨hp1, hp2⟩ := hp
  rw [List.mem_filter] at hp1
  refine ⟨by simpa using hp1.2, by simpa using hp2⟩

theorem keptPairs_mem_pairsAux {c : Chromosome} {p : List Gene} (hp : p ∈ keptPairs c) :
    p ∈ pairsAux ([false, false] :: c) := by
  unfold keptPairs at hp
  rw [List.mem_filter] at hp
  have := hp.1
  rw [List.mem_filter] at this
  exact this.1

theorem pairsAux_flatten {α : Type} :
    ∀ (P : List (List α)), (∀ p ∈ P, p.length = 2) → pairsAux P.flatten = P
  | [], _ => rfl
  | p :: P', h => by
      obtain ⟨a, b, rfl⟩ := List.length_eq_two.mp (h p (List.mem_cons_self p P'))
      have hrest : ∀ q ∈ P', q.length = 2 := fun q hq => h q (List.mem_cons_of_mem _ hq)
      have hfl : ([a, b] :: P').flatten = a :: b :: P'.flatten := by simp
      rw [hfl]
      show [a, b] :: pairsAux P'.flatten = [a, b] :: P'
      rw [pairsAux_flatten P' hrest]

theorem keptPairs_cons_flatten (b : Gene) (P : List (List Gene))
    (hlen : ∀ p ∈ P, p.length = 2)
    (hjunk : ∀ p ∈ P, geneValue (p.getD 1 default) ≠ Value.junk)
    (hb : geneValue b ≠ Value.junk) :
    keptPairs (b :: P.flatten) = [[false, false], b] :: P := by
  unfold keptPairs
  have hpairs : pairsAux ([false, false] :: b :: P.flatten) =
      [[false, false], b] :: P := by
    rw [pairsAux, pairsAux_flatten P hlen]
  rw [hpairs]
  have h1 : ([[false, false], b] :: P).filter (fun pair => pair.length == 2) =
      [[false, false], b] :: P := by
    rw [List.filter_eq_self]
    intro q hq
    rcases List.mem_cons.mp hq with rfl | hq'
    · rfl
    · simpa using hlen q hq'
  rw [h1]
  rw [List.filter_eq_self]
  intro q hq
  rcases List.mem_cons.mp hq with rfl | hq'
  · simpa using hb
  · simpa using hjunk q hq'

/-- Claim C5 — cleaning is idempotent: `clean(clean(c)) = clean(c)` for every
chromosome `c` (an arbitrary gene list; no well-formedness is needed). -/
theorem cleanChromosome_idempotent (c : Chromosome) :
    cleanChromosome (cleanChromosome c) = cleanChromosome c := by
  rw [cleanChromosome_eq_kept c]
  cases hK : keptPairs c with
  | nil =>
      have h0 : keptPairs ([] : Chromosome) = [] := by decide
      simp [cleanChromosome_eq_kept, h0]
  | cons p P' =>
      have hmem : ∀ q ∈ p :: P', q.length = 2 ∧ geneValue (q.getD 1 default) ≠ Value.junk :=
        fun q hq => keptPairs_mem (hK ▸ hq)
      obtain ⟨a, b, rfl⟩ := List.length_eq_two.mp (hmem _ (List.mem_cons_self _ _)).1
      have hb : geneValue b ≠ Value.junk := by
        simpa using (hmem _ (List.mem_cons_self _ _)).2
      have hlen' : ∀ q ∈ P', q.length = 2 := fun q hq => (hmem q (List.mem_cons_of_mem _ hq)).1
      have hjunk' : ∀ q ∈ P', geneValue (q.getD 1 default) ≠ Value.junk :=
        fun q hq => (hmem q (List.mem_cons_of_mem _ hq)).2
      simp only [List.flatten_cons, List.cons_append, List.nil_append, List.drop_succ_cons,
        List.drop_zero]
      rw [cleanChromosome_eq_kept, keptPairs_cons_flatten b P' hlen' hjunk' hb]
      simp

/-- Every 2-bit gene is an operator gene (all four patterns are assigned). -/
theorem geneValue_of_length_two :
    ∀ (g : Gene), g.length = 2 → isOperatorValue (geneValue g) = true
  | [a, b], _ => by cases a <;> cases b <;> decide

/-- A 4-bit gene decodes either to junk or to a digit. -/
theorem geneValue_of_length_four :
    ∀ (g : Gene), g.length = 4 → geneValue g = Value.junk ∨ isDigitValue (geneValue g) = true
  | [a, b, c, d], _ => by cases a <;> cases b <;> cases c <;> cases d <;> decide

theorem wfPairsSeq_cons :
    ∀ (c : Chromosome) (o : Gene), o.length = 2 → wfChromosome c = true → c ≠ [] →
      wfPairsSeq (o :: c) = true
  | [], _, _, _, hne => absurd rfl hne
  | [g], o, ho, hw, _ => by
      simp only [wfChromosome, beq_iff_eq] at hw
      simp [wfPairsSeq, ho, hw]
  | g :: o2 :: rest, o, ho, hw, _ => by
      simp only [wfChromosome, Bool.and_eq_true, beq_iff_eq, bne_iff_ne, ne_eq] at hw
      obtain ⟨⟨⟨hg, ho2⟩, hrest⟩, hwrest⟩ := hw
      have := wfPairsSeq_cons rest o2 ho2 hwrest hrest
      simp [wfPairsSeq, ho, hg, this]

theorem pairsAux_of_wfPairsSeq :
    ∀ (xs : List Gene), wfPairsSeq xs = true →
      ∀ p ∈ pairsAux xs, ∃ o d, p = [o, d] ∧ o.length = 2 ∧ d.length = 4
  | [], _, p, hp => absurd hp (by simp [pairsAux])
  | [_], hw, _, _ => by simp [wfPairsSeq] at hw
  | o :: d :: rest, hw, p, hp => by
      simp only [wfPairsSeq, Bool.and_eq_true, beq_iff_eq] at hw
      obtain ⟨⟨ho, hd⟩, hwrest⟩ := hw
      rcases List.mem_cons.mp hp with rfl | hp'
      · exact ⟨o, d, rfl, ho, hd⟩
      · exact pairsAux_of_wfPairsSeq rest hwrest p hp'

/-- For a well-formed chromosome, every kept pair is `[operator, digit]` with
the digit gene decoding to a non-junk digit. -/
theorem keptPairs_wf_mem {c : Chromosome} (hw : wfChromosome c = true) :
    ∀ p ∈ keptPairs c, ∃ o d, p = [o, d] ∧
      isOperatorValue (geneValue o) = true ∧ isDigitValue (geneValue d) = true := by
  intro p hp
  cases c with
  | nil =>
      exfalso
      have h0 : keptPairs ([] : Chromosome) = [] := by decide
      rw [h0] at hp
      exact absurd hp (List.not_mem_nil p)
  | cons g rest =>
      have hwp : wfPairsSeq ([false, false] :: g :: rest) = true :=
        wfPairsSeq_cons (g :: rest) [false, false] rfl hw (by simp)
      obtain ⟨o, d, rfl, ho, hd⟩ :=
        pairsAux_of_wfPairsSeq _ hwp p (keptPairs_mem_pairsAux hp)
      have hjunk : geneValue d ≠ Value.junk := by
        have := (keptPairs_mem hp).2
        simpa using this
      rcases geneValue_of_length_four d hd with h | h
      · exact absurd h hjunk
      · exact ⟨o, d, rfl, geneValue_of_length_two o ho, h⟩

/-- Flattening good `[operator, digit]` pairs and dropping the first gene
yields a `digit (operator digit)*` sequence. -/
theorem exprShape_flatten :
    ∀ (K : List (List Gene)),
      (∀ p ∈ K, ∃ o d, p = [o, d] ∧
        isOperatorValue (geneValue o) = true ∧ isDigitValue (geneValue d) = true) →
      exprShape (K.flatten.drop 1) = true
  | [], _ => rfl
  | p :: K', h => by
      obtain ⟨o, d, rfl, ho, hd⟩ := h p (List.mem_cons_self _ _)
      have hK' : ∀ q ∈ K', ∃ o d, q = [o, d] ∧
          isOperatorValue (geneValue o) = true ∧ isDigitValue (geneValue d) = true :=
        fun q hq => h q (List.mem_cons_of_mem _ hq)
      have hfl : (([o, d] :: K').flatten).drop 1 = d :: K'.flatten := by simp
      rw [hfl]
      cases hK : K' with
      | nil => simpa [exprShape] using hd
      | cons q K'' =>
          obtain ⟨o2, d2, rfl, ho2, hd2⟩ := hK' q (hK ▸ List.mem_cons_self _ _)
          have hrec := exprShape_flatten K' hK'
          rw [hK] at hrec
          have hfl2 : (([o2, d2] :: K'').flatten).drop 1 = d2 :: K''.flatten := by simp
          rw [hfl2] at hrec
          simp [exprShape, hd, ho2, hrec]

theorem pairsAux_length {α : Type} :
    ∀ (xs : List α), (pairsAux xs).length = (xs.length + 1) / 2
  | [] => by simp [pairsAux]
  | [_] => by simp [pairsAux]
  | _ :: _ :: t => by
      simp only [pairsAux, List.length_cons]
      rw [pairsAux_length t]
      omega

theorem flatten_length_of_pairs {α : Type} :
    ∀ (K : List (List α)), (∀ p ∈ K, p.length = 2) → K.flatten.length = 2 * K.length
  | [], _ => rfl
  | p :: K', h => by
      simp only [List.flatten_cons, List.length_append, List.length_cons]
      rw [h p (List.mem_cons_self _ _),
        flatten_length_of_pairs K' (fun q hq => h q (List.mem_cons_of_mem _ hq))]
      omega

theorem wfChromosome_length :
    ∀ (c : Chromosome), wfChromosome c = true → c = [] ∨ c.length % 2 = 1
  | [], _ => Or.inl rfl
  | [_], _ => Or.inr rfl
  | g :: o :: rest, hw => by
      simp only [wfChromosome, Bool.and_eq_true, beq_iff_eq, bne_iff_ne, ne_eq] at hw
      rcases wfChromosome_length rest hw.2 with rfl | h
      · exact absurd rfl hw.1.2
      · right; simp only [List.length_cons]; omega

theorem exprShape_head :
    ∀ (out : Chromosome), exprShape out = true → out ≠ [] →
      isDigitValue (geneValue (out.getD 0 default)) = true
  | [], _, hne => absurd rfl hne
  | [d], h, _ => by simpa [exprShape] using h
  | d :: o :: rest, h, _ => by
      simp only [exprShape, Bool.and_eq_true] at h
      simpa using h.1.1.1

theorem exprShape_last :
    ∀ (out : Chromosome), exprShape out = true → out ≠ [] →
      isDigitValue (geneValue (out.getD (out.length - 1) default)) = true
  | [], _, hne => absurd rfl hne
  | [d], h, _ => by simpa [exprShape] using h
  | d :: o :: rest, h, _ => by
      simp only [exprShape, Bool.and_eq_true, bne_iff_ne, ne_eq] at h
      obtain ⟨⟨⟨_, _⟩, hne⟩, hrest⟩ := h
      have := exprShape_last rest hrest hne
      have hlen : (d :: o :: rest).length - 1 = rest.length - 1 + 1 + 1 := by
        simp only [List.length_cons]
        have : rest.length ≠ 0 := fun h0 => hne (List.length_eq_zero.mp h0)
        omega
      rw [hlen, List.getD_cons_succ, List.getD_cons_succ]
      exact this

theorem valDigit_of_isDigitValue {v : Value} (h : isDigitValue v = true) :
    ∃ q : ℚ, valDigit v = some q := by
  cases v <;> simp [isDigitValue, valDigit] at h ⊢

theorem valOp_of_isOperatorValue {v : Value} (h : isOperatorValue v = true) :
    ∃ op, valOp v = some op := by
  cases v <;> simp [isOperatorValue, valOp] at h ⊢

theorem parseTail_of_exprShape :
    ∀ (out : Chromosome), exprShape out = true →
      ∃ t, parseTail ((out.map geneValue).drop 1) = some t
  | [], _ => ⟨[], rfl⟩
  | [_], _ => ⟨[], rfl⟩
  | d :: o :: rest, h => by
      simp only [exprShape, Bool.and_eq_true, bne_iff_ne, ne_eq] at h
      obtain ⟨⟨⟨_, ho⟩, hne⟩, hrest⟩ := h
      cases rest with
      | nil => exact absurd rfl hne
      | cons d2 rest' =>
          have hd2 : isDigitValue (geneValue d2) = true := by
            have := exprShape_head (d2 :: rest') hrest (by simp)
            simpa using this
          obtain ⟨op, hop⟩ := valOp_of_isOperatorValue ho
          obtain ⟨q2, hq2⟩ := valDigit_of_isDigitValue hd2
          obtain ⟨t, ht⟩ := parseTail_of_exprShape (d2 :: rest') hrest
          refine ⟨(op, q2) :: t, ?_⟩
          simp only [List.map_cons, List.drop_succ_cons, List.drop_zero] at ht ⊢
          simp [parseTail, hop, hq2, ht]

theorem evalMath_of_exprShape {out : Chromosome} (h : exprShape out = true) :
    ∃ v, evalMath (out.map geneValue) = some v := by
  cases out with
  | nil => exact ⟨.nan, rfl⟩
  | cons d rest =>
      have hd : isDigitValue (geneValue d) = true := by
        have := exprShape_head (d :: rest) h (by simp)
        simpa using this
      obtain ⟨q, hq⟩ := valDigit_of_isDigitValue hd
      obtain ⟨t, ht⟩ := parseTail_of_exprShape (d :: rest) h
      simp only [List.map_cons, List.drop_succ_cons, List.drop_zero] at ht
      refine ⟨evalPrecAux (.fin 0) .add (.fin q) t, ?_⟩
      simp [evalMath, hq, ht]

theorem cleanChromosome_exprShape {c : Chromosome} (h : wfChromosome c = true) :
    exprShape (cleanChromosome c) = true := by
  rw [cleanChromosome_eq_kept]
  exact exprShape_flatten _ (keptPairs_wf_mem h)

/-- Claim C4 — for every chromosome satisfying the data-model width invariant,
cleaning never increases the length, and the output, if non-empty, is a valid
`digit (operator digit)*` sequence beginning and ending with a non-junk digit
gene. -/
theorem cleanChromosome_shape (c : Chromosome) (h : wfChromosome c = true) :
    (cleanChromosome c).length ≤ c.length ∧
    exprShape (cleanChromosome c) = true ∧
    (cleanChromosome c ≠ [] →
      isDigitValue (geneValue ((cleanChromosome c).getD 0 default)) = true ∧
      isDigitValue
        (geneValue ((cleanChromosome c).getD ((cleanChromosome c).length - 1) default)) = true) := by
  have hshape := cleanChromosome_exprShape h
  refine ⟨?_, hshape, fun hne => ⟨exprShape_head _ hshape hne, exprShape_last _ hshape hne⟩⟩
  rw [cleanChromosome_eq_kept]
  have hlen2 : ∀ p ∈ keptPairs c, p.length = 2 := fun p hp => (keptPairs_mem hp).1
  have hfl : (keptPairs c).flatten.length = 2 * (keptPairs c).length :=
    flatten_length_of_pairs _ hlen2
  have hb : (keptPairs c).length ≤ (pairsAux ([false, false] :: c)).length := by
    unfold keptPairs
    calc ((((pairsAux ([false, false] :: c)).filter (fun pair => pair.length == 2)).filter
            (fun pair => !(geneValue (pair.getD 1 default) == Value.junk)))).length
        ≤ ((pairsAux ([false, false] :: c)).filter (fun pair => pair.length == 2)).length :=
          List.length_filter_le _ _
      _ ≤ (pairsAux ([false, false] :: c)).length := List.length_filter_le _ _
  have hp : (pairsAux ([false, false] :: c)).length = (c.length + 2) / 2 := by
    rw [pairsAux_length]
    simp only [List.length_cons]
  rcases wfChromosome_length c h with rfl | hodd
  · have h0 : keptPairs ([] : Chromosome) = [] := by decide
    simp [h0]
  · have hdrop : ((keptPairs c).flatten.drop 1).length = (keptPairs c).flatten.length - 1 := by
      simp
    omega

/-- Witness for C4 at the concrete chromosome `6 + (junk)·? …`:
`[0110, 00, 1111]` cleans to `[0110]`. -/
theorem cleanChromosome_shape_witness :
    wfChromosome [[false, true, true, false], [false, false], [true, true, true, true]] = true ∧
    ((cleanChromosome [[false, true, true, false], [false, false], [true, true, true, true]]).length ≤
        ([[false, true, true, false], [false, false], [true, true, true, true]] : Chromosome).length ∧
      exprShape (cleanChromosome [[false, true, true, false], [false, false], [true, true, true, true]]) = true ∧
      (cleanChromosome [[false, true, true, false], [false, false], [true, true, true, true]] ≠ [] →
        isDigitValue (geneValue ((cleanChromosome [[false, true, true, false], [false, false], [true, true, true, true]]).getD 0 default)) = true ∧
        isDigitValue (geneValue ((cleanChromosome [[false, true, true, false], [false, false], [true, true, true, true]]).getD ((cleanChromosome [[false, true, true, false], [false, false], [true, true, true, true]]).length - 1) default)) = true)) :=
  ⟨by decide,
   cleanChromosome_shape [[false, true, true, false], [false, false], [true, true, true, true]]
     (by decide)⟩

/-- Claim C1 — for every well-formed chromosome and every (finite, rational)
target, `evaluateFitness` returns a finite value in `[0,1]`; it is `0` when
the cleaned expression is empty or the evaluation is `NaN` or an infinity
(i.e. exactly when no finite result exists), it is `1` iff the cleaned
expression evaluates exactly to the target, and for a finite result `m` it
equals `1 / (|target - m| + 1)` (hence is never `0` for a finite result). -/
theorem evaluateFitness_spec (c : Chromosome) (t : ℚ) (h : wfChromosome c = true) :
    ∃ q : ℚ, evaluateFitness c t = some (JSVal.fin q) ∧ 0 ≤ q ∧ q ≤ 1 ∧
      (cleanChromosome c = [] → q = 0) ∧
      (q = 0 ↔ ∀ m : ℚ, evalMath ((cleanChromosome c).map geneValue) ≠ some (JSVal.fin m)) ∧
      (q = 1 ↔ evalMath ((cleanChromosome c).map geneValue) = some (JSVal.fin t)) ∧
      (∀ m : ℚ, evalMath ((cleanChromosome c).map geneValue) = some (JSVal.fin m) →
        q = 1 / (|t - m| + 1)) := by
  obtain ⟨v, hv⟩ := evalMath_of_exprShape (cleanChromosome_exprShape h)
  cases v with
  | nan =>
      refine ⟨0, ?_, le_refl 0, by norm_num, fun _ => rfl, ?_, ?_, ?_⟩
      · simp [evaluateFitness, hv, jsIsNaN]
      · simp only [hv]; simp
      · simp only [hv]; simp
      · intro m hm; rw [hv] at hm; simp at hm
  | posInf =>
      refine ⟨0, ?_, le_refl 0, by norm_num, fun _ => rfl, ?_, ?_, ?_⟩
      · simp [evaluateFitness, hv, jsIsNaN]
      · simp only [hv]; simp
      · simp only [hv]; simp
      · intro m hm; rw [hv] at hm; simp at hm
  | negInf =>
      refine ⟨0, ?_, le_refl 0, by norm_num, fun _ => rfl, ?_, ?_, ?_⟩
      · simp [evaluateFitness, hv, jsIsNaN, jsub, jabs, jadd, jdiv]
      · simp only [hv]; simp
      · simp only [hv]; simp
      · intro m hm; rw [hv] at hm; simp at hm
  | fin m =>
      have hd : (0 : ℚ) < |t - m| + 1 := by positivity
      refine ⟨1 / (|t - m| + 1), ?_, by positivity, ?_, ?_, ?_, ?_, ?_⟩
      · simp only [evaluateFitness, hv, jsIsNaN, JSVal.fin.injEq, beq_iff_eq]
        rw [if_neg (by simp)]
        simp [jsub, jabs, jadd, jdiv, hd.ne']
      · rw [div_le_one hd]
        have : (0 : ℚ) ≤ |t - m| := abs_nonneg _
        linarith
      · intro he
        rw [he] at hv
        simp only [evalMath] at hv
        exact absurd (Option.some.inj hv) (by simp)
      · constructor
        · intro h0
          exact absurd h0 (by positivity)
        · intro hall
          exact absurd hv (hall m)
      · rw [hv]
        constructor
        · intro h1
          field_simp at h1
          have hres : t = m := by linarith
          simp [hres]
        · intro hm
          have : m = t := by simpa using hm
          simp [this]
      · intro m' hm'
        rw [hv] at hm'
        have : m' = m := by simpa using hm'.symm
        rw [this]

/-- Witness for C1 at the single-digit chromosome `[0000]` (the digit 0)
against target 0. -/
theorem evaluateFitness_spec_witness :
    wfChromosome [[false, false, false, false]] = true ∧
    (∃ q : ℚ, evaluateFitness [[false, false, false, false]] 0 = some (JSVal.fin q) ∧
      0 ≤ q ∧ q ≤ 1 ∧
      (cleanChromosome [[false, false, false, false]] = [] → q = 0) ∧
      (q = 0 ↔ ∀ m : ℚ,
        evalMath ((cleanChromosome [[false, false, false, false]]).map geneValue) ≠
          some (JSVal.fin m)) ∧
      (q = 1 ↔ evalMath ((cleanChromosome [[false, false, false, false]]).map geneValue) =
          some (JSVal.fin 0)) ∧
      (∀ m : ℚ, evalMath ((cleanChromosome [[false, false, false, false]]).map geneValue) =
          some (JSVal.fin m) → q = 1 / (|0 - m| + 1))) :=
  ⟨by decide, evaluateFitness_spec [[false, false, false, false]] 0 (by decide)⟩

/-- Claim C6 — the end-to-end example: `chrom1` decodes to
`6 + 5 * 4 / 2 - (junk) + 1`, cleans to `6 + 5 * 4 / 2 + 1` (the junk digit
and the `-` before it dropped, the following `+` kept), evaluates with
standard precedence to `17`, and has fitness `1/26` against target `42`. -/
theorem chrom1_end_to_end :
    chrom1.map geneValue =
      [Value.digit 6, Value.plus, Value.digit 5, Value.times, Value.digit 4,
       Value.divide, Value.digit 2, Value.minus, Value.junk, Value.plus, Value.digit 1] ∧
    cleanChromosome chrom1 =
      [ [false, true , true , false], [false, false], [false, true , false, true ],
        [true , false], [false, true , false, false], [true , true ],
        [false, false, true , false], [false, false], [false, false, false, true ] ] ∧
    (cleanChromosome chrom1).map geneValue =
      [Value.digit 6, Value.plus, Value.digit 5, Value.times, Value.digit 4,
       Value.divide, Value.digit 2, Value.plus, Value.digit 1] ∧
    evalMath ((cleanChromosome chrom1).map geneValue) = some (JSVal.fin 17) ∧
    evaluateFitness chrom1 42 = some (JSVal.fin (1 / 26)) := by
  have hmap : (cleanChromosome chrom1).map geneValue =
      [Value.digit 6, Value.plus, Value.digit 5, Value.times, Value.digit 4,
       Value.divide, Value.digit 2, Value.plus, Value.digit 1] := by decide
  have hmath : evalMath ((cleanChromosome chrom1).map geneValue) = some (JSVal.fin 17) := by
    rw [hmap]
    norm_num [evalMath, parseTail, valDigit, valOp, evalPrecAux, applyOp, jadd, jmul, jdiv]
  refine ⟨by decide, by decide, hmap, hmath, ?_⟩
  unfold evaluateFitness
  rw [hmath]
  norm_num [jsIsNaN, jsub, jabs, jadd, jdiv, abs_of_nonneg]
  decide

theorem zip_closed {α β : Type} [Inhabited α] [Inhabited β] (xs : List α) (ys : List β) :
    zip xs ys = (List.range (min xs.length ys.length)).map
      (fun i => (xs.getD i default, ys.getD i default)) := by
  unfold zip
  split
  · rw [min_eq_left (by omega)]
  · rw [min_eq_right (by omega)]

theorem zip_eq_zip {α β : Type} [Inhabited α] [Inhabited β] :
    ∀ (xs : List α) (ys : List β), zip xs ys = List.zip xs ys
  | [], ys => by simp [zip_closed]
  | _ :: _, [] => by simp [zip_closed]
  | a :: as, b :: bs => by
      rw [zip_closed, List.zip_cons_cons, ← zip_eq_zip as bs, zip_closed]
      have hmin : min (a :: as).length (b :: bs).length = min as.length bs.length + 1 := by
        simp only [List.length_cons]
        omega
      rw [hmin, List.range_succ_eq_map, List.map_cons, List.map_map]
      congr 1

theorem last_append_singleton {α : Type} [Inhabited α] (l : List α) (a : α) :
    last (l ++ [a]) = a := by
  simp [last, List.getD_eq_getElem?_getD, List.getElem?_append_right]

theorem scan_foldl_general {α β : Type} [Inhabited α] (fn : α → β → α) :
    ∀ (values : List β) (pre : List α) (init : α),
      values.foldl (fun acc x => acc ++ [fn (last acc) x]) (pre ++ [init]) =
        pre ++ List.scanl fn init values
  | [], pre, init => by simp
  | x :: t, pre, init => by
      rw [List.foldl_cons, last_append_singleton, List.append_assoc]
      have h := scan_foldl_general fn t (pre ++ [init]) (fn init x)
      rw [List.append_assoc] at h
      simpa [List.scanl_cons] using h

theorem scan_eq_scanl {α β : Type} [Inhabited α] (fn : α → β → α) (initial : α)
    (values : List β) : scan fn initial values = List.scanl fn initial values := by
  have h := scan_foldl_general fn values [] initial
  simpa [scan] using h

/-- Claim C2, evaluated at the failing input — the code's scan is seeded with
`fitnesses[0]` and runs over the whole list, so organism `i` is paired with
`f₀ + Σ_{j<i} f_j` instead of its own prefix sum `Σ_{j≤i} f_j`.  With
fitnesses `[1,2,3]`, total `6` and draw `u = 5/12` (so `r = 5/2`), the code
selects organism 2 while the claimed first-prefix-sum-`≥ r` rule selects
organism 1; and with fitnesses `[1,0,1]` and `r = 3/2` the code selects the
middle organism whose fitness is 0 — not via the fallback — although both of
its neighbours have positive fitness. -/
theorem rouletteWheelSelection_offByOne :
    rouletteWheelSelection [orgA, orgB, orgC] (5/12) = some orgC ∧
    rouletteSpecRule [orgA, orgB, orgC] (JSVal.fin (5/2)) = some orgB ∧
    orgB ≠ orgC ∧
    rouletteWheelSelection [orgA, orgZ2, orgD] (3/4) = some orgZ2 ∧
    orgZ2.fitness = JSVal.fin 0 ∧ orgA.fitness = JSVal.fin 1 ∧ orgD.fitness = JSVal.fin 1 := by
  refine ⟨?_, ?_, by decide, ?_, rfl, rfl, rfl⟩ <;>
    norm_num [rouletteWheelSelection, rouletteSpecRule, sum, scan_eq_scanl, zip_eq_zip,
      jadd, jmul, jle, orgA, orgB, orgC, orgD, orgZ2, List.scanl_cons, List.find?]

theorem jadd_fin_zero : ∀ v : JSVal, jadd v (.fin 0) = v := by
  intro v
  cases v <;> simp [jadd]

theorem sum_all_zero :
    ∀ (l : List JSVal), (∀ x ∈ l, x = JSVal.fin 0) → sum l = .fin 0 := by
  have haux : ∀ (l : List JSVal) (acc : JSVal), (∀ x ∈ l, x = JSVal.fin 0) →
      l.foldl jadd acc = acc := by
    intro l
    induction l with
    | nil => intro acc _; rfl
    | cons x t ih =>
        intro acc h
        rw [List.foldl_cons, h x (List.mem_cons_self _ _), jadd_fin_zero]
        exact ih acc (fun y hy => h y (List.mem_cons_of_mem _ hy))
  intro l h
  exact haux l _ h

/-- Claim C7 as stated is false: on an all-zero-fitness population the draw
is `r = u·0 = 0`, the first cumulative entry `0` already satisfies `0 ≥ r`,
and `find` returns the FIRST organism — the last-organism fallback branch is
not reached. -/
theorem roulette_allzero_not_last :
    rouletteWheelSelection [orgZ1, orgZ2] (1/2) = some orgZ1 ∧
    orgZ1 ≠ orgZ2 ∧
    ([orgZ1, orgZ2] : List Organism)[([orgZ1, orgZ2] : List Organism).length - 1]? =
      some orgZ2 := by
  refine ⟨?_, by decide, by decide⟩
  norm_num [rouletteWheelSelection, sum, scan_eq_scanl, zip_eq_zip, jadd, jmul, jle,
    orgZ1, orgZ2, List.scanl_cons, List.find?]

/-- Claim C7, amended — for every non-empty population in which every
organism has fitness 0, selection does not fail and returns the FIRST
organism of the population (the only possible draw is `r = 0` and the first
cumulative fitness `0` already satisfies `0 ≥ r`); the documented
last-organism fallback fires only when no cumulative entry reaches `r`. -/
theorem roulette_allzero_selects_first (o : Organism) (rest : List Organism) (u : ℚ)
    (hall : ∀ p ∈ o :: rest, p.fitness = JSVal.fin 0) :
    rouletteWheelSelection (o :: rest) u = some o := by
  unfold rouletteWheelSelection
  dsimp only
  have hfit0 : ∀ x ∈ (o :: rest).map (fun o => o.fitness), x = JSVal.fin 0 := by
    intro x hx
    obtain ⟨p, hp, rfl⟩ := List.mem_map.mp hx
    exact hall p hp
  rw [sum_all_zero _ hfit0]
  have hr : jmul (.fin u) (.fin 0) = .fin 0 := by simp [jmul]
  rw [hr, scan_eq_scanl]
  have hof : o.fitness = JSVal.fin 0 := hall o (List.mem_cons_self _ _)
  simp only [List.map_cons, List.getD_cons_zero, hof, List.scanl_cons, List.singleton_append]
  rw [zip_eq_zip]
  rw [List.zip_cons_cons, List.find?_cons_of_pos _ (by simp [jle])]

/-- Witness for the amended C7 at a concrete two-organism population. -/
theorem roulette_allzero_selects_first_witness :
    rouletteWheelSelection [⟨[[true, false, false, false]], .fin 0⟩,
        ⟨[[true, false, false, true]], .fin 0⟩] (1/3) =
      some ⟨[[true, false, false, false]], .fin 0⟩ :=
  roulette_allzero_selects_first ⟨[[true, false, false, false]], .fin 0⟩
    [⟨[[true, false, false, true]], .fin 0⟩] (1/3)
    (by intro p hp; rcases List.mem_cons.mp hp with rfl | hp' <;> simp_all)

/-- Claim C3 as stated is false at concrete inputs: with `mutationRate = 1`
and draws all `0` (legal `Math.random()` values), the junk gene `[1,1,1,1]`
is NOT flipped to `[0,0,0,0]` — the mutator skips genes that classify as
neither digit nor operator; and with `mutationRate = 0` a draw of exactly `0`
satisfies `r <= mutationRate` and flips the bits of the operator gene
`[0,0]`, so the chromosome is not returned unchanged. -/
theorem mutate_counterexample :
    (mutate [[true, true, true, true]] 1 (fun _ => 0) 0).1 ≠ [[false, false, false, false]] ∧
    (mutate [[true, true, true, true]] 1 (fun _ => 0) 0).1 = [[true, true, true, true]] ∧
    (mutate [[false, false]] 0 (fun _ => 0) 0).1 ≠ [[false, false]] := by
  refine ⟨?_, ?_, ?_⟩ <;> norm_num [mutate, mutateGene, mutateBit, flipBit, isNumber,
    isOperator, numberAlleles, operatorAlleles]

theorem isNumber_length {g : Gene} (h : isNumber g = true) : g.length = 4 := by
  unfold isNumber at h
  rw [List.any_eq_true] at h
  obtain ⟨x, hx, hxg⟩ := h
  rw [beq_iff_eq] at hxg
  subst hxg
  fin_cases hx <;> rfl

theorem isOperator_length {g : Gene} (h : isOperator g = true) : g.length = 2 := by
  unfold isOperator at h
  rw [List.any_eq_true] at h
  obtain ⟨x, hx, hxg⟩ := h
  rw [beq_iff_eq] at hxg
  subst hxg
  fin_cases hx <;> rfl

theorem length_eq_four {α : Type} :
    ∀ {l : List α}, l.length = 4 → ∃ a b c d, l = [a, b, c, d]
  | [], h => by simp at h
  | [_], h => by simp at h
  | [_, _], h => by simp at h
  | [_, _, _], h => by simp at h
  | [a, b, c, d], _ => ⟨a, b, c, d, rfl⟩
  | _ :: _ :: _ :: _ :: _ :: _, h => by simp at h

theorem mutateGene_rate_one (s : ℕ → ℚ) (k : ℕ) (g : Gene)
    (hs : ∀ i, 0 ≤ s i ∧ s i < 1) :
    (mutateGene 1 s k g).1 =
      if isNumber g then g.map (fun b => !b)
      else if isOperator g then g.map (fun b => !b)
      else g := by
  have hflip : ∀ (i : ℕ) (x : Bool), mutateBit 1 (s i) x = !x := by
    intro i x
    have h1 := (hs i).2
    rw [mutateBit, if_pos (by linarith)]
    cases x <;> rfl
  by_cases hN : isNumber g
  · obtain ⟨a, b, c, d, rfl⟩ := length_eq_four (isNumber_length hN)
    simp [mutateGene, hN, hflip]
  · by_cases hO : isOperator g
    · obtain ⟨a, b, rfl⟩ := List.length_eq_two.mp (isOperator_length hO)
      simp [mutateGene, hN, hO, hflip]
    · simp [mutateGene, hN, hO]

theorem mutateGene_rate_zero (s : ℕ → ℚ) (k : ℕ) (g : Gene)
    (hs : ∀ i, 0 < s i) :
    (mutateGene 0 s k g).1 = g := by
  have hkeep : ∀ (i : ℕ) (x : Bool), mutateBit 0 (s i) x = x := by
    intro i x
    have h1 := hs i
    rw [mutateBit, if_neg (by linarith)]
  by_cases hN : isNumber g
  · obtain ⟨a, b, c, d, rfl⟩ := length_eq_four (isNumber_length hN)
    simp [mutateGene, hN, hkeep]
  · by_cases hO : isOperator g
    · obtain ⟨a, b, rfl⟩ := List.length_eq_two.mp (isOperator_length hO)
      simp [mutateGene, hN, hO, hkeep]
    · simp [mutateGene, hN, hO]

/-- Claim C3, amended — for every chromosome and every draw stream with
values in `[0,1)` (the range of `Math.random()`), `mutationRate = 1` flips
every bit of every DIGIT or OPERATOR gene but returns Junk genes unchanged
(the mutator dispatches on gene validity and skips genes that classify as
neither); and `mutationRate = 0` returns the chromosome unchanged provided
every draw is strictly positive (a draw of exactly 0 satisfies the `r <=
mutationRate` test and flips its bit). -/
theorem mutate_amended :
    ∀ (c : Chromosome) (s : ℕ → ℚ) (k : ℕ),
      ((∀ i, 0 ≤ s i ∧ s i < 1) →
        (mutate c 1 s k).1 = c.map (fun g =>
          if isNumber g then g.map (fun b => !b)
          else if isOperator g then g.map (fun b => !b)
          else g)) ∧
      ((∀ i, 0 < s i) → (mutate c 0 s k).1 = c)
  | [], _, _ => ⟨fun _ => rfl, fun _ => rfl⟩
  | g :: rest, s, k => by
      refine ⟨fun hs => ?_, fun hs => ?_⟩
      · simp only [mutate, List.map_cons]
        rw [mutateGene_rate_one s k g hs, (mutate_amended rest s _).1 hs]
      · simp only [mutate]
        rw [mutateGene_rate_zero s k g hs, (mutate_amended rest s _).2 hs]

/-- Witness for the amended C3 at the chromosome `[0001, 10]` (digit 1,
operator `*`) with the constant draw stream `1/2`. -/
theorem mutate_amended_witness :
    (mutate [[false, false, false, true], [true, false]] 1 (fun _ => (1:ℚ)/2) 0).1 =
      [[true, true, true, false], [false, true]] ∧
    (mutate [[false, false, false, true], [true, false]] 0 (fun _ => (1:ℚ)/2) 0).1 =
      [[false, false, false, true], [true, false]] := by
  have h := mutate_amended [[false, false, false, true], [true, false]]
    (fun _ => (1:ℚ)/2) 0
  constructor
  · rw [h.1 (fun i => by norm_num)]
    decide
  · exact h.2 (fun i => by norm_num)

/-- Claim C8 as stated is false at a concrete input: with `crossoverRate = 0`
and first draw exactly `0` (a legal `Math.random()` value), `r <= crossoverRate`
holds, the cut lands at position 0, and the two (distinct) parents come back
swapped instead of unchanged. -/
theorem crossover_counterexample :
    (crossover [[true, true, true, true]] [[false, false, false, false]] 0 (fun _ => 0) 0).1 =
      ([[false, false, false, false]], [[true, true, true, true]]) ∧
    (([[false, false, false, false]], [[true, true, true, true]]) :
        Chromosome × Chromosome) ≠
      ([[true, true, true, true]], [[false, false, false, false]]) := by
  refine ⟨?_, by decide⟩
  norm_num [crossover]

/-- Claim C8, amended — for draws in `[0,1)`: with `crossoverRate = 0` the
parents are returned unchanged whenever the deciding draw is strictly
positive (a draw of exactly 0 passes `r <= crossoverRate` and performs the
swap); with `crossoverRate = 1` a tail swap is always performed at the cut
`⌊r₂ · |x|⌋`, a gene index strictly inside the chromosome length whenever the
chromosome is non-empty. -/
theorem crossover_amended (x y : Chromosome) (s : ℕ → ℚ) (k : ℕ) :
    (0 < s k → (crossover x y 0 s k).1 = (x, y)) ∧
    (0 ≤ s k → s k < 1 → 0 ≤ s (k + 1) → s (k + 1) < 1 →
      ∃ p : ℕ, (x ≠ [] → p < x.length) ∧
        (crossover x y 1 s k).1 = (x.take p ++ y.drop p, y.take p ++ x.drop p)) := by
  constructor
  · intro h
    rw [crossover, if_neg (by linarith)]
  · intro h0 h1 h2 h3
    refine ⟨(⌊s (k + 1) * (x.length : ℚ)⌋).toNat, fun hne => ?_, ?_⟩
    · have hxpos : 0 < x.length := List.length_pos.mpr hne
      have hlt : ⌊s (k + 1) * (x.length : ℚ)⌋ < (x.length : ℤ) := by
        rw [Int.floor_lt]
        push_cast
        have hcast : (0 : ℚ) < (x.length : ℚ) := by exact_mod_cast hxpos
        nlinarith
      have hnn : (0 : ℤ) ≤ ⌊s (k + 1) * (x.length : ℚ)⌋ := by
        apply Int.floor_nonneg.mpr
        have hcast : (0 : ℚ) ≤ (x.length : ℚ) := by positivity
        exact mul_nonneg h2 hcast
      exact (Int.toNat_lt hnn).mpr hlt
    · rw [crossover, if_pos (by linarith)]

/-- Witness for the amended C8 at concrete one-gene parents with draw `1/2`. -/
theorem crossover_amended_witness :
    (crossover [[true, true, true, true]] [[false, false, false, false]] 0
        (fun _ => (1:ℚ)/2) 0).1 =
      ([[true, true, true, true]], [[false, false, false, false]]) ∧
    ∃ p : ℕ,
      (([[true, true, true, true]] : Chromosome) ≠ [] →
        p < ([[true, true, true, true]] : Chromosome).length) ∧
      (crossover [[true, true, true, true]] [[false, false, false, false]] 1
          (fun _ => (1:ℚ)/2) 0).1 =
        (List.take p [[true, true, true, true]] ++ List.drop p [[false, false, false, false]],
         List.take p [[false, false, false, false]] ++ List.drop p [[true, true, true, true]]) := by
  have h := crossover_amended [[true, true, true, true]] [[false, false, false, false]]
    (fun _ => (1:ℚ)/2) 0
  exact ⟨h.1 (by norm_num), h.2 (by norm_num) (by norm_num) (by norm_num) (by norm_num)⟩

theorem genList_length {α : Type} :
    ∀ (n : ℕ) (gen : ℕ → α × ℕ) (k : ℕ), ((genList n gen k).1).length = n
  | 0, _, _ => rfl
  | m + 1, gen, k => by
      simp only [genList, List.length_cons]
      rw [genList_length m gen _]

theorem genList_mem {α : Type} :
    ∀ (n : ℕ) (gen : ℕ → α × ℕ) (k : ℕ), ∀ a ∈ (genList n gen k).1, ∃ j, a = (gen j).1
  | 0, _, _, a, ha => absurd ha (List.not_mem_nil a)
  | m + 1, gen, k, a, ha => by
      simp only [genList] at ha
      rcases List.mem_cons.mp ha with rfl | ha'
      · exact ⟨k, rfl⟩
      · exact genList_mem m gen _ a ha'

theorem randomGene_number_length (s : ℕ → ℚ) (k : ℕ) :
    ((randomGene .number s k).1).length = 4 := rfl

theorem randomGene_operator_length (s : ℕ → ℚ) (k : ℕ) :
    ((randomGene .operator s k).1).length = 2 := rfl

theorem last_singleton {α : Type} [Inhabited α] (a : α) : last [a] = a := rfl

theorem last_cons_of_ne_nil {α : Type} [Inhabited α] (a : α) (l : List α) (h : l ≠ []) :
    last (a :: l) = last l := by
  unfold last
  have hl : l.length ≠ 0 := fun h0 => h (List.length_eq_zero.mp h0)
  have : (a :: l).length - 1 = (l.length - 1) + 1 := by
    simp only [List.length_cons]
    omega
  rw [this, List.getD_cons_succ]

theorem interleave_wf :
    ∀ (os ns : List Gene), ns.length = os.length + 1 →
      (∀ g ∈ ns, g.length = 4) → (∀ g ∈ os, g.length = 2) →
      wfChromosome (((List.zip ns os).map (fun p => [p.1, p.2])).flatten ++ [last ns]) = true ∧
      ((((List.zip ns os).map (fun p => [p.1, p.2])).flatten ++ [last ns]).length =
        2 * os.length + 1)
  | [], ns, hlen, hns, _ => by
      obtain ⟨n, rfl⟩ := List.length_eq_one.mp hlen
      simp only [List.zip_nil_right, List.map_nil, List.flatten_nil, List.nil_append,
        last_singleton, List.length_singleton]
      refine ⟨?_, rfl⟩
      have := hns n (List.mem_singleton.mpr rfl)
      simp [wfChromosome, this]
  | o :: os', ns, hlen, hns, hos => by
      cases ns with
      | nil => simp at hlen
      | cons n ns' =>
          have hlen' : ns'.length = os'.length + 1 := by
            simpa using hlen
          have hne : ns' ≠ [] := by
            intro h0
            rw [h0] at hlen'
            simp at hlen'
          obtain ⟨ih1, ih2⟩ := interleave_wf os' ns' hlen'
            (fun g hg => hns g (List.mem_cons_of_mem _ hg))
            (fun g hg => hos g (List.mem_cons_of_mem _ hg))
          rw [List.zip_cons_cons, List.map_cons, List.flatten_cons,
            last_cons_of_ne_nil n ns' hne]
          have hn4 : n.length = 4 := hns n (List.mem_cons_self _ _)
          have ho2 : o.length = 2 := hos o (List.mem_cons_self _ _)
          have hEne : ((List.zip ns' os').map (fun p => [p.1, p.2])).flatten ++ [last ns'] ≠ [] := by
            simp
          constructor
          · show wfChromosome (n :: o ::
              (((List.zip ns' os').map (fun p => [p.1, p.2])).flatten ++ [last ns'])) = true
            simp only [wfChromosome, Bool.and_eq_true, beq_iff_eq, bne_iff_ne, ne_eq]
            exact ⟨⟨⟨hn4, ho2⟩, hEne⟩, ih1⟩
          · show (n :: o ::
              (((List.zip ns' os').map (fun p => [p.1, p.2])).flatten ++ [last ns'])).length =
              2 * (o :: os').length + 1
            simp only [List.length_cons, ih2]
            omega

theorem wfChromosome_counts :
    ∀ (c : Chromosome), wfChromosome c = true →
      ((c.filter (fun g => g.length == 4)).length = (c.length + 1) / 2 ∧
       (c.filter (fun g => g.length == 2)).length = c.length / 2)
  | [], _ => ⟨rfl, rfl⟩
  | [g], h => by
      simp only [wfChromosome, beq_iff_eq] at h
      simp [List.filter, h]
  | g :: o :: rest, h => by
      simp only [wfChromosome, Bool.and_eq_true, beq_iff_eq, bne_iff_ne, ne_eq] at h
      obtain ⟨⟨⟨hg, ho⟩, _⟩, hrest⟩ := h
      obtain ⟨ih1, ih2⟩ := wfChromosome_counts rest hrest
      simp only [List.filter_cons, hg, ho]
      norm_num
      simp only [List.length_cons, ih1, ih2]
      omega

/-- Claim C10 — for every even `L ≥ 2` and every draw stream,
`randomChromosome L` returns exactly `L - 1` genes, strictly alternating
4-bit digit-width and 2-bit operator-width genes, beginning and ending with a
4-bit gene, with `L/2` digit-width genes and `L/2 - 1` operator-width genes,
so `numberOfDigitGenes = numberOfOperatorGenes + 1`. -/
theorem randomChromosome_spec (L : ℕ) (s : ℕ → ℚ) (k : ℕ)
    (heven : L % 2 = 0) (h2 : 2 ≤ L) :
    ((randomChromosome L s k).1).length = L - 1 ∧
    wfChromosome (randomChromosome L s k).1 = true ∧
    (((randomChromosome L s k).1).filter (fun g => g.length == 4)).length = L / 2 ∧
    (((randomChromosome L s k).1).filter (fun g => g.length == 2)).length = L / 2 - 1 ∧
    (((randomChromosome L s k).1).filter (fun g => g.length == 4)).length =
      (((randomChromosome L s k).1).filter (fun g => g.length == 2)).length + 1 := by
  have hns : ∀ g ∈ (genList (L / 2) (randomGene .number s) k).1, g.length = 4 := by
    intro g hg
    obtain ⟨j, rfl⟩ := genList_mem _ _ _ g hg
    exact randomGene_number_length s j
  have hos : ∀ g ∈ (genList (L / 2 - 1) (randomGene .operator s)
      (genList (L / 2) (randomGene .number s) k).2).1, g.length = 2 := by
    intro g hg
    obtain ⟨j, rfl⟩ := genList_mem _ _ _ g hg
    exact randomGene_operator_length s j
  have hlens : ((genList (L / 2) (randomGene .number s) k).1).length =
      ((genList (L / 2 - 1) (randomGene .operator s)
        (genList (L / 2) (randomGene .number s) k).2).1).length + 1 := by
    rw [genList_length, genList_length]
    omega
  obtain ⟨hwf, hlen⟩ := interleave_wf _ _ hlens hns hos
  have hres : (randomChromosome L s k).1 =
      ((List.zip (genList (L / 2) (randomGene .number s) k).1
        (genList (L / 2 - 1) (randomGene .operator s)
          (genList (L / 2) (randomGene .number s) k).2).1).map
        (fun p => [p.1, p.2])).flatten ++
      [last (genList (L / 2) (randomGene .number s) k).1] := by
    unfold randomChromosome
    dsimp only
    rw [zip_eq_zip]
  rw [hres]
  have hlen' : (((List.zip (genList (L / 2) (randomGene .number s) k).1
      (genList (L / 2 - 1) (randomGene .operator s)
        (genList (L / 2) (randomGene .number s) k).2).1).map
      (fun p => [p.1, p.2])).flatten ++
      [last (genList (L / 2) (randomGene .number s) k).1]).length = L - 1 := by
    rw [hlen, genList_length]
    omega
  obtain ⟨hc4, hc2⟩ := wfChromosome_counts _ hwf
  rw [hlen'] at hc4 hc2
  refine ⟨hlen', hwf, ?_, ?_, ?_⟩
  · rw [hc4]; omega
  · rw [hc2]; omega
  · rw [hc4, hc2]; omega

/-- Witness for C10 at `L = 4` with the constant draw stream `1/2`. -/
theorem randomChromosome_spec_witness :
    ((randomChromosome 4 (fun _ => (1:ℚ)/2) 0).1).length = 4 - 1 ∧
    wfChromosome (randomChromosome 4 (fun _ => (1:ℚ)/2) 0).1 = true ∧
    (((randomChromosome 4 (fun _ => (1:ℚ)/2) 0).1).filter
      (fun g => g.length == 4)).length = 4 / 2 ∧
    (((randomChromosome 4 (fun _ => (1:ℚ)/2) 0).1).filter
      (fun g => g.length == 2)).length = 4 / 2 - 1 ∧
    (((randomChromosome 4 (fun _ => (1:ℚ)/2) 0).1).filter
      (fun g => g.length == 4)).length =
      (((randomChromosome 4 (fun _ => (1:ℚ)/2) 0).1).filter
        (fun g => g.length == 2)).length + 1 :=
  randomChromosome_spec 4 (fun _ => (1:ℚ)/2) 0 (by norm_num) (by norm_num)

theorem junkOrg_chromosome : junkOrg.chromosome = junkChrom := rfl

theorem randomChromosome_two_const (k : ℕ) :
    randomChromosome 2 halfStream k = (junkChrom, k + 4) := by
  norm_num [randomChromosome, genList, randomGene, randomBit, zip_eq_zip, last, junkChrom,
    halfStream]

theorem genList_three_const :
    genList 3 (fun k => randomChromosome 2 halfStream k) 0 =
      ([junkChrom, junkChrom, junkChrom], 12) := by
  simp [genList, randomChromosome_two_const]

theorem evaluateFitness_junk : evaluateFitness junkChrom 0 = some (JSVal.fin 0) := by
  have hclean : cleanChromosome junkChrom = [] := by decide
  simp [evaluateFitness, hclean, evalMath, jsIsNaN]

theorem scorePopulation_junk3 :
    scorePopulation [junkChrom, junkChrom, junkChrom] 0 =
      some [junkOrg, junkOrg, junkOrg] := by
  simp [scorePopulation, evaluateFitness_junk, junkOrg]

theorem scorePopulation_junk2 :
    scorePopulation [junkChrom, junkChrom] 0 = some [junkOrg, junkOrg] := by
  simp [scorePopulation, evaluateFitness_junk, junkOrg]

theorem selection_junk3 :
    rouletteWheelSelection [junkOrg, junkOrg, junkOrg] (halfStream 0) = some junkOrg := by
  norm_num [rouletteWheelSelection, sum, scan_eq_scanl, zip_eq_zip, jadd, jmul, jle,
    junkOrg, List.scanl_cons, List.find?, halfStream]

theorem selection_junk3_any (j : ℕ) :
    rouletteWheelSelection [junkOrg, junkOrg, junkOrg] (halfStream j) = some junkOrg :=
  selection_junk3

theorem mutate_junk_const (k : ℕ) :
    mutate junkChrom 0 halfStream k = (junkChrom, k) := by
  norm_num [mutate, mutateGene, junkChrom, isNumber, isOperator, numberAlleles,
    operatorAlleles]

theorem crossover_junk_const (k : ℕ) :
    crossover junkChrom junkChrom 0 halfStream k = ((junkChrom, junkChrom), k + 1) := by
  norm_num [crossover, halfStream]

theorem reproduce_junk3 (k : ℕ) :
    reproduce [junkOrg, junkOrg, junkOrg] 0 0 halfStream k =
      some ((junkChrom, junkChrom), k + 3) := by
  simp [reproduce, selection_junk3_any, crossover_junk_const, mutate_junk_const,
    junkOrg_chromosome]

theorem reproduceN_junk3 (k : ℕ) :
    reproduceN 1 [junkOrg, junkOrg, junkOrg] 0 0 halfStream k =
      some ([(junkChrom, junkChrom)], k + 3) := by
  simp [reproduceN, reproduce_junk3]

/-- Claim C9 as stated is false: `runAlgorithm` performs no configuration
validation.  With the malformed configuration `populationSize = 3` (odd),
`crossoverRate = 0`, `mutationRate = 0`, `generationLimit = 1`,
`chromosomeLength = 2`, `target = 0` and the constant draw stream `1/2`, the
run completes the generational loop and reports a winner — no configuration
error is signaled to the caller (and the final population has shrunk to 2
members). -/
theorem runAlgorithm_rejects_nothing :
    runAlgorithm 3 0 0 1 2 0 halfStream = some junkOrg := by
  have hstep : generationalStep 0 0 1 3 0 halfStream 1
      [junkChrom, junkChrom, junkChrom] 0 12 = some ([junkChrom, junkChrom], 15) := by
    rw [generationalStep]
    norm_num [scorePopulation_junk3, reproduceN_junk3]
    rw [generationalStep]
    norm_num
  rw [runAlgorithm]
  rw [genList_three_const]
  norm_num [hstep, scorePopulation_junk2, jlt, junkOrg]

/-- Claim C9, amended — `runAlgorithm` never validates its configuration:
the generational loop always runs (see `runAlgorithm_rejects_nothing` for a
completed malformed run), and an odd `populationSize` is silently coerced —
every successful reproduction phase produces exactly
`2 * (populationSize / 2)` children (one fewer than an odd
`populationSize`), never a configuration error. -/
theorem reproduceN_population_size :
    ∀ (n : ℕ) (population : List Organism) (cR mR : ℚ) (s : ℕ → ℚ) (k : ℕ)
      (out : List (Chromosome × Chromosome) × ℕ),
      reproduceN n population cR mR s k = some out →
      ((out.1.map (fun p => [p.1, p.2])).flatten).length = 2 * n
  | 0, _, _, _, _, _, out, h => by
      simp only [reproduceN, Option.some.injEq] at h
      rw [← h]
      rfl
  | m + 1, population, cR, mR, s, k, out, h => by
      simp only [reproduceN, bind, Option.bind] at h
      cases hrep : reproduce population cR mR s k with
      | none => rw [hrep] at h; simp at h
      | some p =>
          rw [hrep] at h
          dsimp only at h
          cases hrn : reproduceN m population cR mR s p.2 with
          | none => rw [hrn] at h; simp at h
          | some q =>
              rw [hrn] at h
              simp only [Option.some.injEq] at h
              have hq := reproduceN_population_size m population cR mR s p.2 q hrn
              rw [← h]
              simp only [List.map_cons, List.flatten_cons, List.length_append]
              rw [hq]
              simp only [List.length_cons, List.length_nil]
              omega

/-- Witness for the amended C9: the successful reproduction phase of the
malformed run (`populationSize = 3`, so `n = 3 / 2 = 1` rounds) yields a
next generation of `2 * 1 = 2` chromosomes. -/
theorem reproduceN_population_size_witness :
    (((([(junkChrom, junkChrom)] : List (Chromosome × Chromosome)).map
      (fun p => [p.1, p.2])).flatten).length) = 2 * 1 :=
  reproduceN_population_size 1 [junkOrg, junkOrg, junkOrg] 0 0 halfStream 0
    ([(junkChrom, junkChrom)], 3) (reproduceN_junk3 0)

